import Mathlib

/-!
Verification development for the Orbit local automation agent.

The repository splits into a UI layer (`app/Orbit/src`), a macOS helper
executable (`helper/OrbitHelper/OrbitHelper/main.swift`, with an extended
revision embedded in `PHASE1_COMPLETE.md`), and a Python agent hosting the
core triad (Planner, Executor/Run Controller, Step Broadcast Hub).  The
agent sources are not present in this checkout, so the core triad is
modelled from the specification; the helper and the UI event handler are
embedded directly from their sources.
-/

namespace Orbit

/-! ## Data model -/

/-- Status of one Step inside a Run: `queued → running → (ok | error)`. -/
inductive StepStatus
  | queued
  | running
  | ok
  | error
deriving DecidableEq, Repr

/-- Terminal and intermediate status of a Run. -/
inductive RunStatus
  | pending
  | running
  | completed
  | failed
deriving DecidableEq, Repr

/-- Parameter value carried by a ToolCall. -/
inductive PValue
  | natV (n : Nat)
  | strV (s : String)
deriving DecidableEq, Repr

/-- ToolCall: a tool name plus a mapping from parameter names to values. -/
structure ToolCall where
  tool_name : String
  parameters : List (String × PValue)
deriving DecidableEq, Repr

/-- Plan: ordered sequence of ToolCalls. -/
abbrev Plan := List ToolCall

/-- StepEvent: the record the Executor publishes on every Step transition. -/
structure StepEvent where
  run_id : String
  step_id : Nat
  status : StepStatus
  message : String
deriving DecidableEq, Repr

/-- Step: one tool call execution slot inside a Run. -/
structure Step where
  step_id : Nat
  tool_call : ToolCall
  status : StepStatus
deriving DecidableEq, Repr

/-! ## Elementary string utilities

The planner model needs executable clause splitting and number parsing;
these are written structurally over `String.data` so that every concrete
instance reduces inside the kernel. -/

/-- Accumulating splitter over a character list: breaks at each separator. -/
def splitChAux (sep : Char) : List Char → List Char → List (List Char)
  | [], acc => [acc.reverse]
  | c :: cs, acc =>
      if c = sep then acc.reverse :: splitChAux sep cs []
      else splitChAux sep cs (c :: acc)

/-- Whitespace word splitting of a command string (empty words dropped). -/
def words (s : String) : List String :=
  ((splitChAux ' ' s.data []).filter (fun l => l ≠ [])).map (fun l => String.mk l)

/-- Value of a decimal digit character, if it is one. -/
def digit? (c : Char) : Option Nat :=
  if '0' ≤ c ∧ c ≤ '9' then some (c.toNat - '0'.toNat) else none

/-- Accumulating decimal parser over a character list. -/
def parseNatAux : List Char → Nat → Option Nat
  | [], n => some n
  | c :: cs, n =>
      match digit? c with
      | some d => parseNatAux cs (n * 10 + d)
      | none => none

/-- Decimal parse of a nonempty all-digit string. -/
def parseNat? (s : String) : Option Nat :=
  match s.data with
  | [] => none
  | cs => parseNatAux cs 0

/-- Integer parse: optional leading minus sign, then digits. -/
def parseInt? (s : String) : Option Int :=
  match s.data with
  | [] => none
  | '-' :: rest =>
      match rest with
      | [] => none
      | _ => (parseNatAux rest 0).map (fun n => -(n : Int))
  | cs => (parseNatAux cs 0).map (fun n => (n : Int))

/-- Join a word list back into one space-separated string. -/
def joinWords : List String → String
  | [] => ""
  | [w] => w
  | w :: ws => String.mk (w.data ++ ' ' :: (joinWords ws).data)

/-! ## Planner (modelled from the spec)

Modelled from the spec: the Planner sources (`planner.py`) are not in this
checkout.  Per the spec, `parse` splits the command into clauses on a fixed
set of conjunction markers, matches each clause in rule-registration order
against a fixed list of pattern rules (first match wins), and fails with
`UnparseableCommand` if any clause matches no rule; the two documented rules
are `create N files in DIR` and `open APP`. -/

/-- Clause splitting on the fixed conjunction marker word `then`. -/
def splitClausesAux : List String → List String → List (List String)
  | [], acc => [acc.reverse]
  | w :: ws, acc =>
      if w = "then" then acc.reverse :: splitClausesAux ws []
      else splitClausesAux ws (w :: acc)

/-- Clauses of a command: its word list split on the conjunction marker. -/
def splitClauses (command : String) : List (List String) :=
  splitClausesAux (words command) []

/-- Modelled from the spec: pattern rule `create N files in DIR`. -/
def matchCreateFiles : List String → Option ToolCall
  | ["create", n, "files", "in", dir] =>
      match parseNat? n with
      | some k => some ⟨"create_files", [("count", .natV k), ("dir", .strV dir)]⟩
      | none => none
  | _ => none

/-- Modelled from the spec: pattern rule `open APP`. -/
def matchOpenApp : List String → Option ToolCall
  | "open" :: rest =>
      match rest with
      | [] => none
      | _ => some ⟨"open_app", [("name", .strV (joinWords rest))]⟩
  | _ => none

/-- The fixed rule list, in registration order. -/
def plannerRules : List (List String → Option ToolCall) :=
  [matchCreateFiles, matchOpenApp]

/-- First-match-wins resolution of one clause against a rule list. -/
def firstMatch : List (List String → Option ToolCall) → List String → Option ToolCall
  | [], _ => none
  | r :: rs, clause =>
      match r clause with
      | some tc => some tc
      | none => firstMatch rs clause

/-- Resolution of one clause against the registered rules. -/
def matchClause (clause : List String) : Option ToolCall :=
  firstMatch plannerRules clause

/-- Planner-time failure: some clause matched no rule. -/
inductive PlanError
  | UnparseableCommand (clause : List String)
deriving DecidableEq, Repr

/-- All-or-nothing resolution of a clause list into a Plan. -/
def parseClauses : List (List String) → Except PlanError Plan
  | [] => .ok []
  | c :: cs =>
      match matchClause c with
      | none => .error (.UnparseableCommand c)
      | some tc =>
          match parseClauses cs with
          | .error e => .error e
          | .ok p => .ok (tc :: p)

/-- Modelled from the spec: `parse(command) → Plan`, pure and total. -/
def parse (command : String) : Except PlanError Plan :=
  parseClauses (splitClauses command)

/-! ## Executor / Run Controller (modelled from the spec)

Modelled from the spec: the Executor sources (`server.py`) are not in this
checkout.  Per the spec, all steps are pre-enumerated `queued` with ids
contiguous from 1; each step emits a `running` event, invokes its tool, then
emits `ok` or `error`; on the first `error` no further step is issued and
the Run is `failed`; it is `completed` iff every step reached `ok`.  Tool
behaviour is abstracted as a function from ToolCall to a result. -/

/-- Result a Tool Registry implementation returns to the Executor. -/
structure ToolResult where
  isOk : Bool
  message : String
deriving DecidableEq, Repr

/-- Pre-enumeration of a Plan into queued Steps with ids counted from `i`. -/
def initStepsFrom (i : Nat) : Plan → List Step
  | [] => []
  | tc :: rest => ⟨i, tc, .queued⟩ :: initStepsFrom (i + 1) rest

/-- All Steps of a Plan, queued, with step ids contiguous from 1. -/
def initSteps (plan : Plan) : List Step :=
  initStepsFrom 1 plan

/-- Sequential fail-fast execution of a Step list: returns the published
event trace and the final Step list. -/
def execStepsFrom (exec : ToolCall → ToolResult) (rid : String) :
    List Step → List StepEvent × List Step
  | [] => ([], [])
  | s :: rest =>
      let r := exec s.tool_call
      let evRun : StepEvent := ⟨rid, s.step_id, .running, s.tool_call.tool_name⟩
      if r.isOk then
        let tail := execStepsFrom exec rid rest
        (evRun :: ⟨rid, s.step_id, .ok, r.message⟩ :: tail.1,
         { s with status := .ok } :: tail.2)
      else
        ([evRun, ⟨rid, s.step_id, .error, r.message⟩],
         { s with status := .error } :: rest)

/-- Terminal Run status from the final Step list. -/
def finalRunStatus (sts : List Step) : RunStatus :=
  if sts.all (fun s => s.status = .ok) then .completed else .failed

/-- One Run of a Plan: terminal status, final Steps, published events. -/
def execRun (exec : ToolCall → ToolResult) (rid : String) (plan : Plan) :
    RunStatus × List Step × List StepEvent :=
  let tail := execStepsFrom exec rid (initSteps plan)
  (finalRunStatus tail.2, tail.2, tail.1)

/-- API edge: parse then execute; a parse failure is returned synchronously
and creates no Run, issues no run id and publishes no events. -/
def submit (exec : ToolCall → ToolResult) (rid : String) (command : String) :
    Except PlanError (String × RunStatus × List Step × List StepEvent) :=
  match parse command with
  | .error e => .error e
  | .ok plan => .ok (rid, execRun exec rid plan)

/-! ## Step Broadcast Hub (modelled from the spec)

Modelled from the spec: the Hub sources (`steps.py`) are not in this
checkout.  Per the spec, `subscribe` registers a fresh observer handle,
`unsubscribe` removes it, and `publish` delivers the event to every
currently subscribed handle; events published before subscription are never
delivered.  The model records, per handle, the list of delivered events. -/

/-- Hub state: the next fresh observer handle and the subscribed observers,
each with the events delivered to it so far. -/
structure HubState where
  nextHandle : Nat
  subscribers : List (Nat × List StepEvent)
deriving Repr

/-- One operation on the Hub. -/
inductive HubOp
  | subscribe
  | unsubscribe (h : Nat)
  | publish (e : StepEvent)
deriving Repr

/-- Empty Hub. -/
def hubInit : HubState := ⟨0, []⟩

/-- Effect of one Hub operation. -/
def hubStep : HubState → HubOp → HubState
  | s, .subscribe => ⟨s.nextHandle + 1, (s.nextHandle, []) :: s.subscribers⟩
  | s, .unsubscribe h => ⟨s.nextHandle, s.subscribers.filter (fun p => p.1 != h)⟩
  | s, .publish e => ⟨s.nextHandle, s.subscribers.map (fun p => (p.1, p.2 ++ [e]))⟩

/-- Effect of an operation sequence starting from a given state. -/
def hubRunFrom (s : HubState) (ops : List HubOp) : HubState :=
  ops.foldl hubStep s

/-- Effect of an operation sequence from the empty Hub. -/
def hubRun (ops : List HubOp) : HubState :=
  hubRunFrom hubInit ops

/-- Events delivered so far to a handle inside a subscriber list. -/
def receivedIn (h : Nat) : List (Nat × List StepEvent) → Option (List StepEvent)
  | [] => none
  | p :: ps => if p.1 = h then some p.2 else receivedIn h ps

/-- Events delivered so far to a handle, `none` when not subscribed. -/
def received (h : Nat) (s : HubState) : Option (List StepEvent) :=
  receivedIn h s.subscribers

/-- Events published along an operation sequence, in order. -/
def publishedEvents : List HubOp → List StepEvent
  | [] => []
  | .publish e :: ops => e :: publishedEvents ops
  | .subscribe :: ops => publishedEvents ops
  | .unsubscribe _ :: ops => publishedEvents ops

/-- Hub well-formedness: every subscribed handle is below the fresh one. -/
def hubWF (s : HubState) : Prop :=
  ∀ p ∈ s.subscribers, p.1 < s.nextHandle

end Orbit

namespace OrbitHelper

/-! ## OrbitHelper embedding

Embedded from `helper/OrbitHelper/OrbitHelper/main.swift` and from the
extended revision of the same file contained in `PHASE1_COMPLETE.md`.  The
macOS surface is abstracted into an environment: whether
`NSWorkspace.launchApplication` succeeds for a name, the outcome of
`NSAppleScript` execution, whether the process is AX-trusted, and whether a
queried UI element exists at a given half-second tick. -/

/-- HelperError from main.swift. -/
inductive HelperError
  | usage (msg : String)
  | appNotFound (msg : String)
deriving DecidableEq, Repr

/-- Rendering of a HelperError the way Swift string interpolation shows an
enum case with an associated value. -/
def HelperError.describe : HelperError → String
  | .usage m => "usage(" ++ m ++ ")"
  | .appNotFound m => "appNotFound(" ++ m ++ ")"

/-- Anything the do-block of main.swift can catch: a HelperError or an
NSError raised by AppleScript execution, kept as its message. -/
inductive Thrown
  | helperErr (e : HelperError)
  | nsError (msg : String)
deriving DecidableEq, Repr

/-- Rendering of a caught error inside the `Error: \(error)` line. -/
def Thrown.render : Thrown → String
  | .helperErr e => e.describe
  | .nsError m => m

/-- Abstraction of the macOS surface the helper calls into. -/
structure Env where
  launches : String → Bool
  applescript : String → Except String String
  trusted : Bool
  present : Nat → Bool

/-- Observable outcome of one helper invocation. -/
structure HelperResult where
  exitCode : Nat
  stdout : List String
  stderr : List String
deriving DecidableEq, Repr

/-- Usage text printed by `printUsage()` (abstracted to one line). -/
def usageLines : List String := ["OrbitHelper usage"]

/-- Warning `ensureAccessibilityPermission` writes to stderr when the
process is not AX-trusted. -/
def axWarning : String :=
  "Accessibility permission not granted yet. Open System Settings > Privacy & Security > Accessibility and add OrbitHelper."

/-- Stderr lines produced by `ensureAccessibilityPermission()`: a warning
exactly when not trusted; it never throws. -/
def ensureAX (trusted : Bool) : List String :=
  if trusted then [] else [axWarning]

/-- AppleScript built by `focusApp`. -/
def focusScript (name : String) : String :=
  "tell application \"" ++ name ++ "\" to activate"

/-- AppleScript built by `clickMenu`. -/
def clickMenuScript (app menu item : String) : String :=
  "tell application \"" ++ app ++ "\" to activate tell application \"System Events\" tell process \"" ++
    app ++ "\" click menu item \"" ++ item ++ "\" of menu \"" ++ menu ++ "\" of menu bar 1"

/-- The `openApp` function of main.swift: throws
`HelperError.appNotFound("Could not open NAME")` when the workspace launch
returns false. -/
def openApp (launches : String → Bool) (name : String) : Except HelperError Unit :=
  if launches name then .ok () else .error (.appNotFound ("Could not open " ++ name))

/-- Outcome of the body of one routed case: stdout lines, stderr lines, and
the error it throws, if any. -/
structure BodyOut where
  stdout : List String
  stderr : List String
  thrown : Option Thrown
deriving DecidableEq, Repr

/-- Argument routing switch of the shipped main.swift (open-app, focus-app,
run-applescript, click-menu, check-ax); `none` is the default case. -/
def routeBody (env : Env) (cmd : String) (rest : List String) : Option BodyOut :=
  match cmd with
  | "open-app" =>
      some (match rest with
        | [] => ⟨[], [], some (.helperErr (.usage "open-app requires app name"))⟩
        | name :: _ =>
            match openApp env.launches name with
            | .ok _ => ⟨[], [], none⟩
            | .error e => ⟨[], [], some (.helperErr e)⟩)
  | "focus-app" =>
      some (match rest with
        | [] => ⟨[], [], some (.helperErr (.usage "focus-app requires app name"))⟩
        | name :: _ =>
            match env.applescript (focusScript name) with
            | .ok _ => ⟨[], [], none⟩
            | .error m => ⟨[], [], some (.nsError m)⟩)
  | "run-applescript" =>
      some (let src := Orbit.joinWords rest
        if src = "" then ⟨[], [], some (.helperErr (.usage "run-applescript requires a script string"))⟩
        else
          match env.applescript src with
          | .ok out => ⟨if out = "" then [] else [out], [], none⟩
          | .error m => ⟨[], [], some (.nsError m)⟩)
  | "click-menu" =>
      some (match rest with
        | [app, menu, item] =>
            match env.applescript (clickMenuScript app menu item) with
            | .ok _ => ⟨[], ensureAX env.trusted, none⟩
            | .error m => ⟨[], ensureAX env.trusted, some (.nsError m)⟩
        | _ => ⟨[], [], some (.helperErr (.usage "click-menu requires 3 args: app, menu, item"))⟩)
  | "check-ax" => some ⟨[], ensureAX env.trusted, none⟩
  | _ => none

/-- Process-level outcome: usage and exit 1 for a missing or unknown
command; exit 2 with an `Error:` stderr line for a caught error; exit 0
otherwise. -/
def helperMain (env : Env) (args : List String) : HelperResult :=
  match args with
  | [] => ⟨1, usageLines, []⟩
  | cmd :: rest =>
      match routeBody env cmd rest with
      | none => ⟨1, usageLines, []⟩
      | some b =>
          match b.thrown with
          | none => ⟨0, b.stdout, b.stderr⟩
          | some t => ⟨2, b.stdout, b.stderr ++ ["Error: " ++ t.render]⟩

/-! ### Extended helper from PHASE1_COMPLETE.md -/

/-- AppleScript repeat loop of `waitForElement`, on half-second ticks: the
element is probed at tick `k`; `remaining` counts the ticks before the
elapsed time first exceeds the timeout, at which point a missing element
raises the timeout error. -/
def waitLoopAux (present : Nat → Bool) (name : String) : Nat → Nat → Except String String
  | 0, k =>
      if present k then .ok ("Found element: " ++ name)
      else .error ("Timeout waiting for element: " ++ name)
  | r + 1, k =>
      if present k then .ok ("Found element: " ++ name)
      else waitLoopAux present name r (k + 1)

/-- The `waitForElement` function: probes the element every half second and
raises `Timeout waiting for element: NAME` at the first probe after the
elapsed seconds exceed `timeout`. -/
def waitForElement (present : Nat → Bool) (name : String) (timeout : Int) : Except String String :=
  waitLoopAux present name (2 * timeout + 1).toNat 0

/-- AppleScript built by `clickElement`. -/
def clickElementScript (app element : String) : String :=
  "tell application \"" ++ app ++ "\" to activate click button or UI element \"" ++ element ++ "\""

/-- AppleScript built by `getText`. -/
def getTextScript (app element : String) : String :=
  "tell application \"" ++ app ++ "\" to activate get value of \"" ++ element ++ "\""

/-- Argument routing switch of the extended main.swift in
PHASE1_COMPLETE.md: adds click-element, get-text and wait-for-element on top
of the shipped cases.  For wait-for-element the timeout is
`parts.count >= 3 ? Int(parts[2]) ?? 10 : 10`. -/
def routeBodyExt (env : Env) (cmd : String) (rest : List String) : Option BodyOut :=
  match cmd with
  | "click-element" =>
      some (match rest with
        | [app, element] =>
            match env.applescript (clickElementScript app element) with
            | .ok _ => ⟨[], ensureAX env.trusted, none⟩
            | .error m => ⟨[], ensureAX env.trusted, some (.nsError m)⟩
        | _ => ⟨[], [], some (.helperErr (.usage "click-element requires 2 args: app, element"))⟩)
  | "get-text" =>
      some (match rest with
        | [app, element] =>
            match env.applescript (getTextScript app element) with
            | .ok out => ⟨[out], ensureAX env.trusted, none⟩
            | .error m => ⟨[], ensureAX env.trusted, some (.nsError m)⟩
        | _ => ⟨[], [], some (.helperErr (.usage "get-text requires 2 args: app, element"))⟩)
  | "wait-for-element" =>
      some (match rest with
        | _app :: element :: more =>
            let timeout : Int :=
              match more with
              | [] => 10
              | t :: _ => (Orbit.parseInt? t).getD 10
            match waitForElement env.present element timeout with
            | .ok out => ⟨[out], ensureAX env.trusted, none⟩
            | .error m => ⟨[], ensureAX env.trusted, some (.nsError m)⟩
        | _ => ⟨[], [], some (.helperErr (.usage "wait-for-element requires at least 2 args: app, element [timeout]"))⟩)
  | _ => routeBody env cmd rest

/-- Process-level outcome of the extended helper. -/
def helperMainExt (env : Env) (args : List String) : HelperResult :=
  match args with
  | [] => ⟨1, usageLines, []⟩
  | cmd :: rest =>
      match routeBodyExt env cmd rest with
      | none => ⟨1, usageLines, []⟩
      | some b =>
          match b.thrown with
          | none => ⟨0, b.stdout, b.stderr⟩
          | some t => ⟨2, b.stdout, b.stderr ++ ["Error: " ++ t.render]⟩

/-- Concrete environment in which no app launches, every AppleScript fails,
and no UI element ever appears. -/
def envNothing : Env :=
  ⟨fun _ => false, fun _ => .error "applescript failed", true, fun _ => false⟩

end OrbitHelper

namespace OrbitUI

/-! ## CommandBar event handler

Embedded from the `connectSteps` effect of `CommandBar.tsx`
(`src/unnamed/part_001`, lines 26-43): on each received event the component
appends it to its event list and sets `isStepsOpen` to true exactly when the
event has status `"queued"` and `step_id === 1`. -/

/-- StepEvent as the UI receives it over the wire: status is a raw string. -/
structure UIStepEvent where
  run_id : String
  step_id : Nat
  status : String
  message : String
deriving DecidableEq, Repr

/-- Effect of one received event on the `isStepsOpen` state. -/
def commandBarOnEvent (e : UIStepEvent) (isStepsOpen : Bool) : Bool :=
  if e.status = "queued" ∧ e.step_id = 1 then true else isStepsOpen

end OrbitUI

namespace Orbit

/-! ## Planner lemmas and claims -/

lemma parseClauses_unmatched_error (cs : List (List String))
    (h : ∃ c ∈ cs, matchClause c = none) :
    ∃ c, parseClauses cs = .error (.UnparseableCommand c) := by
  induction cs with
  | nil => simp at h
  | cons c cs ih =>
      rcases h with ⟨c0, hc0, hm⟩
      rcases List.mem_cons.mp hc0 with rfl | hmem
      · exact ⟨c0, by simp [parseClauses, hm]⟩
      · cases hmc : matchClause c with
        | none => exact ⟨c, by simp [parseClauses, hmc]⟩
        | some tc =>
            rcases ih ⟨c0, hmem, hm⟩ with ⟨c1, hc1⟩
            exact ⟨c1, by simp [parseClauses, hmc, hc1]⟩

/-- C1.  Planner determinism: `parse` is a pure function of the command
string — no randomness, no external state enters the model — so any two
calls on the identical string yield bit-identical Plans. -/
theorem parse_deterministic (c : String) (p₁ p₂ : Plan)
    (h₁ : parse c = .ok p₁) (h₂ : parse c = .ok p₂) : p₁ = p₂ := by
  rw [h₁] at h₂
  exact ((Except.ok.injEq _ _).mp h₂).symm ▸ rfl

/-- Plan produced for the spec's Scenario A command. -/
def scenarioPlanA : Plan :=
  [⟨"create_files", [("count", .natV 3), ("dir", .strV "documents")]⟩]

/-- C1 witness: two parses of Scenario A's command yield the same Plan. -/
theorem parse_deterministic_witness : scenarioPlanA = scenarioPlanA :=
  parse_deterministic "create 3 files in documents" scenarioPlanA scenarioPlanA rfl rfl

/-- C5.  All-or-nothing parsing with synchronous, effect-free failure: when
some clause of the command matches no pattern rule, `parse` fails with
`UnparseableCommand` and `submit` returns that error synchronously — it
never returns a run id, a Run or any StepEvent. -/
theorem unparseable_no_effects (exec : ToolCall → ToolResult) (rid : String) (command : String)
    (h : ∃ c ∈ splitClauses command, matchClause c = none) :
    (∃ c, parse command = .error (.UnparseableCommand c)) ∧
    ∀ x, submit exec rid command ≠ .ok x := by
  rcases parseClauses_unmatched_error (splitClauses command) h with ⟨c, hc⟩
  refine ⟨⟨c, hc⟩, ?_⟩
  intro x hx
  simp [submit, parse, hc] at hx

/-- Tool semantics in which every call succeeds. -/
def execAllOk : ToolCall → ToolResult := fun _ => ⟨true, "ok"⟩

/-- C5 witness: the spec's Scenario D command fails synchronously and
produces no run. -/
theorem unparseable_no_effects_witness :
    ((∃ c, parse "frobnicate the whatsit" = .error (.UnparseableCommand c)) ∧
      ∀ x, submit execAllOk "r1" "frobnicate the whatsit" ≠ .ok x) :=
  unparseable_no_effects execAllOk "r1" "frobnicate the whatsit"
    ⟨["frobnicate", "the", "whatsit"], by decide, rfl⟩

/-! ## Executor lemmas and claims -/

lemma initStepsFrom_mem_status (plan : Plan) :
    ∀ (n : Nat) s, s ∈ initStepsFrom n plan → s.status = .queued := by
  induction plan with
  | nil => intro n s hs; simp [initStepsFrom] at hs
  | cons tc rest ih =>
      intro n s hs
      rcases List.mem_cons.mp hs with rfl | hmem
      · rfl
      · exact ih (n + 1) s hmem

lemma initStepsFrom_mem_ge (plan : Plan) :
    ∀ (n : Nat) s, s ∈ initStepsFrom n plan → n ≤ s.step_id := by
  induction plan with
  | nil => intro n s hs; simp [initStepsFrom] at hs
  | cons tc rest ih =>
      intro n s hs
      rcases List.mem_cons.mp hs with rfl | hmem
      · exact le_refl n
      · exact le_trans (Nat.le_succ n) (ih (n + 1) s hmem)

lemma initStepsFrom_map_id (plan : Plan) :
    ∀ n, (initStepsFrom n plan).map (fun s => s.step_id) = List.range' n plan.length := by
  induction plan with
  | nil => intro n; simp [initStepsFrom]
  | cons tc rest ih => intro n; simp [initStepsFrom, List.range', ih]

lemma execInit_events_ge (exec : ToolCall → ToolResult) (rid : String) (plan : Plan) :
    ∀ (n : Nat) e, e ∈ (execStepsFrom exec rid (initStepsFrom n plan)).1 → n ≤ e.step_id := by
  induction plan with
  | nil => intro n e he; simp [initStepsFrom, execStepsFrom] at he
  | cons tc rest ih =>
      intro n e he
      by_cases h : (exec tc).isOk
      · simp [initStepsFrom, execStepsFrom, h] at he
        rcases he with rfl | rfl | he
        · exact le_refl n
        · exact le_refl n
        · exact le_trans (Nat.le_succ n) (ih (n + 1) e he)
      · simp [initStepsFrom, execStepsFrom, h] at he
        rcases he with rfl | rfl
        · exact le_refl n
        · exact le_refl n

lemma execInit_steps_ge (exec : ToolCall → ToolResult) (rid : String) (plan : Plan) :
    ∀ (n : Nat) s, s ∈ (execStepsFrom exec rid (initStepsFrom n plan)).2 → n ≤ s.step_id := by
  induction plan with
  | nil => intro n s hs; simp [initStepsFrom, execStepsFrom] at hs
  | cons tc rest ih =>
      intro n s hs
      by_cases h : (exec tc).isOk
      · simp [initStepsFrom, execStepsFrom, h] at hs
        rcases hs with rfl | hs
        · exact le_refl n
        · exact le_trans (Nat.le_succ n) (ih (n + 1) s hs)
      · simp [initStepsFrom, execStepsFrom, h] at hs
        rcases hs with rfl | hs
        · exact le_refl n
        · exact le_trans (Nat.le_succ n) (initStepsFrom_mem_ge rest (n + 1) s hs)

lemma execInit_all_ok_or_error (exec : ToolCall → ToolResult) (rid : String) (plan : Plan) :
    ∀ n, (∀ s ∈ (execStepsFrom exec rid (initStepsFrom n plan)).2, s.status = .ok) ∨
      (∃ s ∈ (execStepsFrom exec rid (initStepsFrom n plan)).2, s.status = .error) := by
  induction plan with
  | nil => intro n; left; intro s hs; simp [initStepsFrom, execStepsFrom] at hs
  | cons tc rest ih =>
      intro n
      by_cases h : (exec tc).isOk
      · rcases ih (n + 1) with hall | ⟨s, hs, herr⟩
        · left
          intro s hs
          simp [initStepsFrom, execStepsFrom, h] at hs
          rcases hs with rfl | hs
          · rfl
          · exact hall s hs
        · right
          refine ⟨s, ?_, herr⟩
          simp [initStepsFrom, execStepsFrom, h]
          right; exact hs
      · right
        refine ⟨⟨n, tc, .error⟩, ?_, rfl⟩
        simp [initStepsFrom, execStepsFrom, h]

lemma execInit_fail_fast (exec : ToolCall → ToolResult) (rid : String) (plan : Plan) :
    ∀ n s, s ∈ (execStepsFrom exec rid (initStepsFrom n plan)).2 → s.status = .error →
      (∀ t ∈ (execStepsFrom exec rid (initStepsFrom n plan)).2,
        s.step_id < t.step_id → t.status = .queued) ∧
      (∀ e ∈ (execStepsFrom exec rid (initStepsFrom n plan)).1, e.step_id ≤ s.step_id) := by
  induction plan with
  | nil => intro n s hs; simp [initStepsFrom, execStepsFrom] at hs
  | cons tc rest ih =>
      intro n s hs herr
      by_cases h : (exec tc).isOk
      · simp only [initStepsFrom, execStepsFrom, h, if_pos] at hs ⊢
        rcases List.mem_cons.mp hs with rfl | hs
        · simp at herr
        · have hsge : n + 1 ≤ s.step_id := execInit_steps_ge exec rid rest (n + 1) s hs
          rcases ih (n + 1) s hs herr with ⟨hq, hev⟩
          constructor
          · intro t ht hlt
            rcases List.mem_cons.mp ht with rfl | ht
            · exact absurd hlt (by simp; omega)
            · exact hq t ht hlt
          · intro e he
            rcases List.mem_cons.mp he with rfl | he
            · simp; omega
            · rcases List.mem_cons.mp he with rfl | he
              · simp; omega
              · exact hev e he
      · simp only [initStepsFrom, execStepsFrom, h, if_neg, Bool.not_eq_true] at hs ⊢
        rcases List.mem_cons.mp hs with rfl | hs
        · constructor
          · intro t ht hlt
            rcases List.mem_cons.mp ht with rfl | ht
            · simp at hlt
            · exact initStepsFrom_mem_status rest (n + 1) t ht
          · intro e he
            rcases List.mem_cons.mp he with rfl | he
            · simp
            · rcases List.mem_cons.mp he with rfl | he
              · simp
              · simp at he
        · exact absurd herr (by rw [initStepsFrom_mem_status rest (n + 1) s hs]; simp)

lemma execInit_events_pairwise (exec : ToolCall → ToolResult) (rid : String) (plan : Plan) :
    ∀ n, List.Pairwise (fun a b => a.step_id ≤ b.step_id)
      (execStepsFrom exec rid (initStepsFrom n plan)).1 := by
  induction plan with
  | nil => intro n; simp [initStepsFrom, execStepsFrom]
  | cons tc rest ih =>
      intro n
      by_cases h : (exec tc).isOk
      · simp only [initStepsFrom, execStepsFrom, h, if_pos]
        refine List.pairwise_cons.mpr ⟨?_, List.pairwise_cons.mpr ⟨?_, ih (n + 1)⟩⟩
        · intro e he
          rcases List.mem_cons.mp he with rfl | he
          · simp
          · exact le_trans (Nat.le_succ n) (execInit_events_ge exec rid rest (n + 1) e he)
        · intro e he
          exact le_trans (Nat.le_succ n) (execInit_events_ge exec rid rest (n + 1) e he)
      · simp only [initStepsFrom, execStepsFrom, h, if_neg, Bool.not_eq_true]
        refine List.pairwise_cons.mpr ⟨?_, List.pairwise_cons.mpr ⟨?_, List.Pairwise.nil⟩⟩
        · intro e he
          rcases List.mem_cons.mp he with rfl | he
          · simp
          · simp at he
        · intro e he; simp at he

lemma filter_eq_nil_of_ge (evs : List StepEvent) (n i : Nat) (hlt : i < n)
    (hge : ∀ e ∈ evs, n ≤ e.step_id) :
    evs.filter (fun e => e.step_id == i) = [] := by
  rw [List.filter_eq_nil_iff]
  intro e he
  have := hge e he
  simp only [beq_iff_eq]
  omega

lemma execInit_filter_shape (exec : ToolCall → ToolResult) (rid : String) (plan : Plan) :
    ∀ n i, (((execStepsFrom exec rid (initStepsFrom n plan)).1.filter
        (fun e => e.step_id == i)).map (fun e => e.status)) ∈
      ([[], [.running, .ok], [.running, .error]] : List (List StepStatus)) := by
  induction plan with
  | nil => intro n i; simp [initStepsFrom, execStepsFrom]
  | cons tc rest ih =>
      intro n i
      by_cases h : (exec tc).isOk
      · simp only [initStepsFrom, execStepsFrom, h, if_pos]
        by_cases hi : n = i
        · subst hi
          have hnil : (execStepsFrom exec rid (initStepsFrom (n + 1) rest)).1.filter
              (fun e => e.step_id == n) = [] :=
            filter_eq_nil_of_ge _ (n + 1) n (by omega)
              (execInit_events_ge exec rid rest (n + 1))
          simp [List.filter_cons, hnil]
        · have hne : (n == i) = false := by simp [hi]
          simpa [List.filter_cons, hne] using ih (n + 1) i
      · simp only [initStepsFrom, execStepsFrom, h, if_neg, Bool.not_eq_true]
        by_cases hi : n = i
        · subst hi
          simp [List.filter_cons]
        · have hne : (n == i) = false := by simp [hi]
          simp [List.filter_cons, hne]

/-- C2.  Fail-fast run closure: a Run's terminal status is `completed` iff
every step reached `ok`, and `failed` iff some step reached `error`; after
the first step ending in `error`, every later step stays `queued` and no
event is ever published for it (it is never executed). -/
theorem run_fail_fast_closure (exec : ToolCall → ToolResult) (rid : String) (plan : Plan) :
    ((execRun exec rid plan).1 = .completed ↔
      ∀ s ∈ (execRun exec rid plan).2.1, s.status = .ok) ∧
    ((execRun exec rid plan).1 = .failed ↔
      ∃ s ∈ (execRun exec rid plan).2.1, s.status = .error) ∧
    (∀ s ∈ (execRun exec rid plan).2.1, s.status = .error →
      (∀ t ∈ (execRun exec rid plan).2.1, s.step_id < t.step_id → t.status = .queued) ∧
      (∀ e ∈ (execRun exec rid plan).2.2, e.step_id ≤ s.step_id)) := by
  refine ⟨?_, ?_, ?_⟩
  · constructor
    · intro hc s hs
      simp only [execRun, finalRunStatus] at hc hs
      by_cases hall : ((execStepsFrom exec rid (initSteps plan)).2.all (fun s => s.status = .ok))
      · exact of_decide_eq_true (List.all_eq_true.mp hall s hs)
      · rw [if_neg hall] at hc
        exact absurd hc (by simp)
    · intro hall
      simp only [execRun, finalRunStatus] at hall ⊢
      rw [if_pos (List.all_eq_true.mpr (fun s hs => decide_eq_true (hall s hs)))]
  · constructor
    · intro hf
      simp only [execRun, finalRunStatus] at hf ⊢
      by_cases hall : ((execStepsFrom exec rid (initSteps plan)).2.all (fun s => s.status = .ok))
      · rw [if_pos hall] at hf
        exact absurd hf (by simp)
      · rcases execInit_all_ok_or_error exec rid plan 1 with hok | hex
        · exact absurd (List.all_eq_true.mpr (fun s hs => decide_eq_true (hok s hs))) hall
        · exact hex
    · intro hex
      simp only [execRun, finalRunStatus] at hex ⊢
      rcases hex with ⟨s, hs, herr⟩
      have hnall : ¬ ((execStepsFrom exec rid (initSteps plan)).2.all
          (fun s => s.status = .ok)) := by
        intro hall
        have := of_decide_eq_true (List.all_eq_true.mp hall s hs)
        rw [herr] at this
        exact absurd this (by simp)
      rw [if_neg hnall]
  · intro s hs herr
    exact execInit_fail_fast exec rid plan 1 s hs herr

/-- C3.  Per-run event ordering: the event trace of one Run has
non-decreasing step ids — so all of step N's events fully precede step
N+1's — and for every step the events match the transition order:
`running` followed by the terminal `ok` or `error`. -/
theorem per_run_event_ordering (exec : ToolCall → ToolResult) (rid : String) (plan : Plan) :
    List.Pairwise (fun a b => a.step_id ≤ b.step_id) (execRun exec rid plan).2.2 ∧
    ∀ i, (((execRun exec rid plan).2.2.filter (fun e => e.step_id == i)).map
        (fun e => e.status)) ∈
      ([[], [.running, .ok], [.running, .error]] : List (List StepStatus)) :=
  ⟨execInit_events_pairwise exec rid plan 1, fun i => execInit_filter_shape exec rid plan 1 i⟩

/-- C6.  Step lifecycle: all steps are pre-enumerated `queued` with step ids
contiguous from 1, and every step's status history along a Run is exactly
`queued`, `queued → running → ok` or `queued → running → error` — no state
is skipped and a terminal state is never left. -/
theorem step_lifecycle (exec : ToolCall → ToolResult) (rid : String) (plan : Plan) :
    ((initSteps plan).map (fun s => s.step_id) = List.range' 1 plan.length) ∧
    (∀ s ∈ initSteps plan, s.status = .queued) ∧
    (∀ i, (StepStatus.queued :: (((execRun exec rid plan).2.2.filter
          (fun e => e.step_id == i)).map (fun e => e.status))) ∈
      ([[.queued], [.queued, .running, .ok], [.queued, .running, .error]] :
        List (List StepStatus))) := by
  refine ⟨initStepsFrom_map_id plan 1, fun s hs => initStepsFrom_mem_status plan 1 s hs, ?_⟩
  intro i
  have h := execInit_filter_shape exec rid plan 1 i
  rcases List.mem_cons.mp h with h1 | h1
  · rw [show ((execRun exec rid plan).2.2.filter (fun e => e.step_id == i)).map
        (fun e => e.status) = _ from h1]
    simp
  · rcases List.mem_cons.mp h1 with h2 | h2
    · rw [show ((execRun exec rid plan).2.2.filter (fun e => e.step_id == i)).map
          (fun e => e.status) = _ from h2]
      simp
    · rcases List.mem_cons.mp h2 with h3 | h3
      · rw [show ((execRun exec rid plan).2.2.filter (fun e => e.step_id == i)).map
            (fun e => e.status) = _ from h3]
        simp
      · simp at h3

/-! ## Hub lemmas and claims -/

lemma hubStep_wf (s : HubState) (op : HubOp) (h : hubWF s) : hubWF (hubStep s op) := by
  cases op with
  | subscribe =>
      intro p hp
      rcases List.mem_cons.mp hp with rfl | hp
      · exact Nat.lt_succ_self _
      · exact Nat.lt_succ_of_lt (h p hp)
  | unsubscribe h' =>
      intro p hp
      exact h p (List.mem_of_mem_filter hp)
  | publish e =>
      intro p hp
      rcases List.mem_map.mp hp with ⟨q, hq, rfl⟩
      exact h q hq

lemma receivedIn_some_mem (h : Nat) (subs : List (Nat × List StepEvent)) (evs : List StepEvent)
    (hr : receivedIn h subs = some evs) : (h, evs) ∈ subs := by
  induction subs with
  | nil => simp [receivedIn] at hr
  | cons p ps ih =>
      by_cases hph : p.1 = h
      · simp [receivedIn, hph] at hr
        subst hr
        have hpeq : (h, p.2) = p := by rw [← hph]
        rw [hpeq]
        exact List.mem_cons_self p ps
      · simp [receivedIn, hph] at hr
        exact List.mem_cons_of_mem p (ih hr)

lemma receivedIn_map_append (h : Nat) (e : StepEvent) (subs : List (Nat × List StepEvent)) :
    receivedIn h (subs.map (fun p => (p.1, p.2 ++ [e]))) =
      (receivedIn h subs).map (fun l => l ++ [e]) := by
  induction subs with
  | nil => rfl
  | cons p ps ih =>
      by_cases hph : p.1 = h
      · simp [receivedIn, hph]
      · simp [receivedIn, hph, ih]

lemma receivedIn_filter_ne (h h' : Nat) (subs : List (Nat × List StepEvent)) (hne : h ≠ h') :
    receivedIn h (subs.filter (fun p => p.1 != h')) = receivedIn h subs := by
  induction subs with
  | nil => rfl
  | cons p ps ih =>
      rw [List.filter_cons]
      by_cases hph : p.1 = h'
      · have hc : (p.1 != h') = false := by simp [hph]
        rw [hc, if_neg (by simp)]
        have hph2 : ¬ (p.1 = h) := by rw [hph]; exact fun hc2 => hne hc2.symm
        rw [ih, receivedIn, if_neg hph2]
      · have hc : (p.1 != h') = true := by simp [hph]
        rw [hc, if_pos rfl, receivedIn, receivedIn, ih]

lemma receivedIn_filter_self (h : Nat) (subs : List (Nat × List StepEvent)) :
    receivedIn h (subs.filter (fun p => p.1 != h)) = none := by
  induction subs with
  | nil => rfl
  | cons p ps ih =>
      rw [List.filter_cons]
      by_cases hph : p.1 = h
      · have hc : (p.1 != h) = false := by simp [hph]
        rw [hc, if_neg (by simp), ih]
      · have hc : (p.1 != h) = true := by simp [hph]
        rw [hc, if_pos rfl, receivedIn, if_neg hph, ih]

lemma received_subscribe_other (s : HubState) (h : Nat) (hlt : h < s.nextHandle) :
    received h (hubStep s .subscribe) = received h s := by
  have hne : ¬ (s.nextHandle = h) := fun hc => absurd (hc ▸ hlt) (lt_irrefl _)
  rw [received, hubStep]
  simp only
  rw [receivedIn, if_neg hne]
  rfl

lemma received_publish (s : HubState) (h : Nat) (e : StepEvent) :
    received h (hubStep s (.publish e)) = (received h s).map (fun l => l ++ [e]) := by
  rw [received, hubStep]
  simp only
  rw [receivedIn_map_append]
  rfl

lemma received_unsubscribe_other (s : HubState) (h h' : Nat) (hne : h ≠ h') :
    received h (hubStep s (.unsubscribe h')) = received h s := by
  rw [received, hubStep]
  simp only
  rw [receivedIn_filter_ne h h' s.subscribers hne]
  rfl

lemma received_none_stable (ops : List HubOp) :
    ∀ (s : HubState) (h : Nat), hubWF s → h < s.nextHandle → received h s = none →
      received h (hubRunFrom s ops) = none := by
  induction ops with
  | nil => intro s h _ _ h0; exact h0
  | cons op ops ih =>
      intro s h hwf hlt h0
      have hstep : hubRunFrom s (op :: ops) = hubRunFrom (hubStep s op) ops := rfl
      rw [hstep]
      have hlt2 : h < (hubStep s op).nextHandle := by
        cases op with
        | subscribe => exact Nat.lt_succ_of_lt hlt
        | unsubscribe h' => exact hlt
        | publish e => exact hlt
      refine ih _ h (hubStep_wf s _ hwf) hlt2 ?_
      cases op with
      | subscribe => rw [received_subscribe_other s h hlt, h0]
      | unsubscribe h' =>
          by_cases hh : h = h'
          · subst hh
            exact receivedIn_filter_self h s.subscribers
          · rw [received_unsubscribe_other s h h' hh, h0]
      | publish e => rw [received_publish, h0]; rfl

lemma received_some_run (ops : List HubOp) :
    ∀ (s : HubState) (h : Nat) (evs evs' : List StepEvent), hubWF s →
      received h s = some evs → received h (hubRunFrom s ops) = some evs' →
      evs' = evs ++ publishedEvents ops := by
  induction ops with
  | nil =>
      intro s h evs evs' _ h0 h1
      rw [show hubRunFrom s [] = s from rfl, h0] at h1
      simp [publishedEvents]
      exact ((Option.some.injEq _ _).mp h1).symm
  | cons op ops ih =>
      intro s h evs evs' hwf h0 h1
      have hlt : h < s.nextHandle := hwf (h, evs) (receivedIn_some_mem h s.subscribers evs h0)
      have hstep : hubRunFrom s (op :: ops) = hubRunFrom (hubStep s op) ops := rfl
      rw [hstep] at h1
      cases op with
      | subscribe =>
          have h0' : received h (hubStep s .subscribe) = some evs := by
            rw [received_subscribe_other s h hlt, h0]
          have := ih _ h evs evs' (hubStep_wf s _ hwf) h0' h1
          simpa [publishedEvents] using this
      | unsubscribe h' =>
          by_cases hh : h = h'
          · subst hh
            have h0' : received h (hubStep s (.unsubscribe h)) = none :=
              receivedIn_filter_self h s.subscribers
            have hfin := received_none_stable ops (hubStep s (.unsubscribe h)) h
              (hubStep_wf s _ hwf) hlt h0'
            rw [hfin] at h1
            exact absurd h1 (by simp)
          · have h0' : received h (hubStep s (.unsubscribe h')) = some evs := by
              rw [received_unsubscribe_other s h h' hh, h0]
            have := ih _ h evs evs' (hubStep_wf s _ hwf) h0' h1
            simpa [publishedEvents] using this
      | publish e =>
          have h0' : received h (hubStep s (.publish e)) = some (evs ++ [e]) := by
            rw [received_publish, h0]
            rfl
          have := ih _ h (evs ++ [e]) evs' (hubStep_wf s _ hwf) h0' h1
          rw [this]
          simp [publishedEvents]

lemma hubRunFrom_wf (ops : List HubOp) :
    ∀ s, hubWF s → hubWF (hubRunFrom s ops) := by
  induction ops with
  | nil => intro s hs; exact hs
  | cons op ops ih => intro s hs; exact ih _ (hubStep_wf s op hs)

/-- C4.  No replay: an observer subscribing after a prefix of Hub traffic
receives exactly the events published after its subscription, so any event
published only before the subscription is never delivered to it. -/
theorem hub_no_replay (pre post : List HubOp) (evs : List StepEvent)
    (h1 : received (hubRun pre).nextHandle (hubRun (pre ++ HubOp.subscribe :: post)) = some evs) :
    evs = publishedEvents post ∧
    ∀ e, e ∈ publishedEvents pre → e ∉ publishedEvents post → e ∉ evs := by
  have hsplit : hubRun (pre ++ HubOp.subscribe :: post) =
      hubRunFrom (hubStep (hubRun pre) .subscribe) post := by
    rw [hubRun, hubRunFrom, List.foldl_append]
    rfl
  rw [hsplit] at h1
  have hwf : hubWF (hubRun pre) := hubRunFrom_wf pre hubInit (fun p hp => by simp [hubInit] at hp)
  have h0 : received (hubRun pre).nextHandle (hubStep (hubRun pre) .subscribe) = some [] := by
    rw [received, hubStep]
    simp only
    rw [receivedIn, if_pos rfl]
  have heq := received_some_run post _ _ [] evs (hubStep_wf _ _ hwf) h0 h1
  simp at heq
  subst heq
  exact ⟨rfl, fun e _ hnotin hmem => hnotin hmem⟩

/-- Sample event published before the witness observer subscribes. -/
def ev1 : StepEvent := ⟨"r1", 1, .running, "a"⟩

/-- Sample event published after the witness observer subscribes. -/
def ev2 : StepEvent := ⟨"r1", 1, .ok, "b"⟩

/-- C4 witness: an observer subscribing between two publishes receives only
the later one; the earlier event is never delivered to it. -/
theorem hub_no_replay_witness :
    (([ev2] : List StepEvent) = publishedEvents [HubOp.publish ev2] ∧
      ∀ e, e ∈ publishedEvents [HubOp.publish ev1] →
        e ∉ publishedEvents [HubOp.publish ev2] → e ∉ ([ev2] : List StepEvent)) :=
  hub_no_replay [HubOp.publish ev1] [HubOp.publish ev2] [ev2] rfl

end Orbit

namespace OrbitHelper

/-! ## Helper claims -/

/-- C7.  open_app failure contract: when the workspace cannot launch the
named app, `openApp` throws `AppNotFound` whose message is exactly
`Could not open ` followed by the name, and the helper process prints that
message inside its `Error:` stderr line and exits with status 2 (nonzero);
on a successful launch it returns ok and the helper exits 0. -/
theorem open_app_failure_contract (env : Env) (name : String) :
    (env.launches name = false →
      openApp env.launches name = .error (.appNotFound ("Could not open " ++ name)) ∧
      (helperMain env ["open-app", name]).exitCode = 2 ∧
      (helperMain env ["open-app", name]).exitCode ≠ 0 ∧
      (∃ pre post, (helperMain env ["open-app", name]).stderr =
        [pre ++ ("Could not open " ++ name) ++ post])) ∧
    (env.launches name = true →
      openApp env.launches name = .ok () ∧
      helperMain env ["open-app", name] = ⟨0, [], []⟩) := by
  constructor
  · intro h
    refine ⟨by simp [openApp, h], by simp [helperMain, routeBody, openApp, h],
      by simp [helperMain, routeBody, openApp, h], ⟨"Error: appNotFound(", ")", ?_⟩⟩
    simp only [helperMain, routeBody, openApp, h, Bool.false_eq_true, if_false,
      Thrown.render, HelperError.describe, String.append_assoc]
    rw [← String.append_assoc]
    rfl
  · intro h
    exact ⟨by simp [openApp, h], by simp [helperMain, routeBody, openApp, h]⟩

/-- C10.  The check-ax command always exits with status 0, whatever the
accessibility-permission state: a missing permission only adds the warning
line on stderr, never an error or a nonzero exit. -/
theorem check_ax_always_exit_zero (env : Env) :
    (helperMain env ["check-ax"]).exitCode = 0 ∧
    (helperMain env ["check-ax"]).stdout = [] ∧
    (helperMain env ["check-ax"]).stderr = (if env.trusted then [] else [axWarning]) :=
  ⟨rfl, rfl, rfl⟩

lemma waitLoopAux_never (present : Nat → Bool) (name : String)
    (hnever : ∀ t, present t = false) :
    ∀ r k, waitLoopAux present name r k = .error ("Timeout waiting for element: " ++ name) := by
  intro r
  induction r with
  | zero => intro k; simp [waitLoopAux, hnever k]
  | succ r ih =>
      intro k
      simp [waitLoopAux, hnever k]
      exact ih (k + 1)

/-- C8.  Wait-for-condition timeout ownership: the wait-for-element tool
uses timeout 10 when the third argument is absent or not a parseable
integer, and when the element never appears its internal loop terminates
with the `Timeout waiting for element` error, making the helper exit with
status 2 (nonzero) instead of waiting forever. -/
theorem wait_for_element_timeout (env : Env) (app element : String)
    (hnever : ∀ t, env.present t = false) :
    (∀ timeoutArg, Orbit.parseInt? timeoutArg = none →
      helperMainExt env ["wait-for-element", app, element, timeoutArg] =
      helperMainExt env ["wait-for-element", app, element]) ∧
    waitForElement env.present element 10 =
      .error ("Timeout waiting for element: " ++ element) ∧
    (helperMainExt env ["wait-for-element", app, element]).exitCode = 2 ∧
    (helperMainExt env ["wait-for-element", app, element]).stderr =
      ensureAX env.trusted ++ ["Error: " ++ ("Timeout waiting for element: " ++ element)] := by
  refine ⟨?_, ?_, ?_, ?_⟩
  · intro targ hparse
    simp [helperMainExt, routeBodyExt, hparse]
  · exact waitLoopAux_never env.present element hnever _ 0
  · simp [helperMainExt, routeBodyExt, waitForElement,
      waitLoopAux_never env.present element hnever, Thrown.render]
  · simp [helperMainExt, routeBodyExt, waitForElement,
      waitLoopAux_never env.present element hnever, Thrown.render]

/-- C8 witness: in an environment where the element never appears, waiting
for it times out and the helper exits 2. -/
theorem wait_for_element_timeout_witness :
    ((∀ timeoutArg, Orbit.parseInt? timeoutArg = none →
      helperMainExt envNothing ["wait-for-element", "Calculator", "OK", timeoutArg] =
      helperMainExt envNothing ["wait-for-element", "Calculator", "OK"]) ∧
    waitForElement envNothing.present "OK" 10 =
      .error ("Timeout waiting for element: " ++ "OK") ∧
    (helperMainExt envNothing ["wait-for-element", "Calculator", "OK"]).exitCode = 2 ∧
    (helperMainExt envNothing ["wait-for-element", "Calculator", "OK"]).stderr =
      ensureAX envNothing.trusted ++ ["Error: " ++ ("Timeout waiting for element: " ++ "OK")]) :=
  wait_for_element_timeout envNothing "Calculator" "OK" (fun _ => rfl)

end OrbitHelper

namespace OrbitUI

/-- C9.  The CommandBar auto-opens its steps panel exactly on receipt of a
StepEvent whose status is `queued` and whose step id is 1; any other event
leaves the panel state unchanged, so it never auto-opens the panel. -/
theorem command_bar_auto_open (e : UIStepEvent) (panelOpen : Bool) :
    ((e.status = "queued" ∧ e.step_id = 1) → commandBarOnEvent e panelOpen = true) ∧
    (¬(e.status = "queued" ∧ e.step_id = 1) → commandBarOnEvent e panelOpen = panelOpen) := by
  constructor
  · intro h
    simp [commandBarOnEvent, h]
  · intro h
    simp [commandBarOnEvent, h]

end OrbitUI

